import Mathlib

/-!
Shallow embedding of the `true-ledger-cms` core (Rust) for specification
verification.

Sources embedded:
- `src/core/src/ledger.rs`: domain model (`Account`, `Posting`, `Transaction`)
  and the in-memory `Ledger` with `add_account` / `record_transaction` /
  `balance`.
- `src/core/src/sync.rs`: `SyncableLedger`, the sync-document content and its
  projection bridge (`update_from_ledger` / `to_ledger` with the per-section
  helpers `update_accounts`, `update_transactions`, `update_balances`,
  `read_accounts`, `read_transactions`, `read_balances`).

Modelling conventions:
- `Uuid` is modelled as `Nat` (a 128-bit value); the library round trip
  `Uuid::parse_str(u.to_string()) = u` is taken as given, so fields that the
  document stores as canonical UUID text are modelled as carrying the `Uuid`
  value itself.  The same convention is used for dates
  (`chrono::NaiveDate::parse_from_str(d.to_string(), "%Y-%m-%d") = d`), for
  decimal text (`rust_decimal`), and for the postings JSON round trip through
  `serde_json` (`from_str(to_string(v)) = v`): these are bijective library
  codecs, so the modelled document stores the typed values.  Account category
  strings are NOT treated this way: the category-string decoding is repository
  logic (an explicit `match` in `read_accounts`), so the document model stores
  the literal category `String` produced by the Rust side's Debug formatting.
- `Decimal` is modelled as `Int`: `rust_decimal` is exact fixed-point
  arithmetic, so a fixed-scale value is a scaled integer; addition and the
  zero test are exact.
- Rust's `std::collections::HashMap` is modelled as an association list with
  replace-in-place insertion.  `HashMap` iteration order is unspecified in
  Rust; this model realises it as entry order (first insertion order), one of
  the possible orders.  No operation of the embedded code sorts entries.
- Errors are the literal strings / `SyncError::MissingField` payloads of the
  source, carried in `Except String`.
-/

/-! ## Basic types -/

abbrev Uuid := Nat

/-- Fixed-precision decimal (`rust_decimal::Decimal`), modelled as an exact
scaled integer. -/
abbrev Decimal := Int

/-- Type `chrono::NaiveDate`, modelled structurally; only carried through, never
computed with. -/
structure Date where
  year : Int
  month : Nat
  day : Nat
deriving DecidableEq, Repr

/-! ## Association-list model of `std::collections::HashMap` -/

/-- Rust `HashMap::contains_key`. -/
def mapContains {β : Type} : List (Uuid × β) → Uuid → Bool
  | [], _ => false
  | p :: m, k => if p.1 = k then true else mapContains m k

/-- Rust `HashMap::insert`: replace the value in place when the key is present,
otherwise add a new entry (modelled at the end of the entry list). -/
def mapInsert {β : Type} (m : List (Uuid × β)) (k : Uuid) (v : β) :
    List (Uuid × β) :=
  if mapContains m k then
    m.map (fun p => if p.1 = k then (p.1, v) else p)
  else
    m ++ [(k, v)]

/-- Rust `HashMap::get` (the value of the entry with the key, if any). -/
def mapGet {β : Type} : List (Uuid × β) → Uuid → Option β
  | [], _ => none
  | p :: m, k => if p.1 = k then some p.2 else mapGet m k

/-- In-place update of the entry at key `k` (the effect of
`*map.get_mut(&k).unwrap() += ...` when the key is present; the source
unwraps, so it is only ever called with the key present). -/
def mapUpdate {β : Type} (m : List (Uuid × β)) (k : Uuid) (f : β → β) :
    List (Uuid × β) :=
  m.map (fun p => if p.1 = k then (p.1, f p.2) else p)

/-- Source idiom `map.entry(k).or_insert(Decimal::ZERO) += amount`. -/
def entryOrInsertAdd (m : List (Uuid × Decimal)) (k : Uuid) (amount : Decimal) :
    List (Uuid × Decimal) :=
  if mapContains m k then mapUpdate m k (fun b => b + amount)
  else m ++ [(k, 0 + amount)]

/-! ## `src/core/src/ledger.rs` -/

/-- Enum `AccountType` (ledger.rs). -/
inductive AccountType where
  | Asset | Liability | Equity | Revenue | Expense
deriving DecidableEq, Repr

/-- Struct `Account` (ledger.rs); the field spelled `r#type` in `ledger.rs` and
referred to as `account_type` in `sync.rs`. -/
structure Account where
  id : Uuid
  name : String
  account_type : AccountType
deriving DecidableEq, Repr

/-- Struct `Posting` (ledger.rs): `amount` is `+debit, -credit`. -/
structure Posting where
  account_id : Uuid
  amount : Decimal
deriving DecidableEq, Repr

/-- Struct `Transaction` (ledger.rs). -/
structure Transaction where
  id : Uuid
  date : Date
  description : String
  postings : List Posting
deriving DecidableEq, Repr

/-- Method `Transaction::is_balanced`: the posting amounts sum to zero. -/
def Transaction.is_balanced (t : Transaction) : Bool :=
  (t.postings.map (fun p => p.amount)).sum == 0

/-- Struct `Ledger` (ledger.rs): accounts and derived balances only — the struct has
no field holding recorded transactions. -/
structure Ledger where
  accounts : List (Uuid × Account)
  balances : List (Uuid × Decimal)
deriving DecidableEq, Repr

/-- Constructor `Ledger::new`. -/
def Ledger.new : Ledger := ⟨[], []⟩

/-- Method `Ledger::add_account`: inserts the account and unconditionally resets the
balance entry to zero. -/
def Ledger.add_account (l : Ledger) (account : Account) : Ledger :=
  { accounts := mapInsert l.accounts account.id account
    balances := mapInsert l.balances account.id 0 }

/-- The posting loop of `Ledger::record_transaction`: for each posting in
order, first check the account exists (returning `Err("Account not found")`
from the partially-updated state otherwise), then add the amount into the
balance. -/
def Ledger.applyPostings (l : Ledger) :
    List Posting → Ledger × Except String Unit
  | [] => (l, Except.ok ())
  | p :: ps =>
    if mapContains l.accounts p.account_id then
      Ledger.applyPostings
        { l with
          balances := mapUpdate l.balances p.account_id (fun b => b + p.amount) }
        ps
    else
      (l, Except.error "Account not found")

/-- Method `Ledger::record_transaction`: reject unbalanced transactions up front,
then walk the postings, validating and applying in the same loop. -/
def Ledger.record_transaction (l : Ledger) (tx : Transaction) :
    Ledger × Except String Unit :=
  if !tx.is_balanced then (l, Except.error "Unbalanced transaction")
  else Ledger.applyPostings l tx.postings

/-- Method `Ledger::balance`: zero when the account is absent. -/
def Ledger.balance (l : Ledger) (id : Uuid) : Decimal :=
  (mapGet l.balances id).getD 0

/-- Sum over all accounts a of balance(a), the quantity of the spec's global
conservation law. -/
def Ledger.sumBalances (l : Ledger) : Decimal :=
  (l.accounts.map (fun p => l.balance p.1)).sum

/-! ## `src/core/src/sync.rs`: `SyncableLedger` -/

/-- Struct `SyncableLedger` (sync.rs): accounts, the ordered transactions list, and
balances. -/
structure SyncableLedger where
  accounts : List (Uuid × Account)
  transactions : List Transaction
  balances : List (Uuid × Decimal)
deriving DecidableEq, Repr

/-- Constructor `SyncableLedger::new`. -/
def SyncableLedger.new : SyncableLedger := ⟨[], [], []⟩

/-- Method `SyncableLedger::add_account`: inserts the account and zero-initialises
the balance only when absent (`entry(..).or_insert(Decimal::ZERO)`). -/
def SyncableLedger.add_account (sl : SyncableLedger) (account : Account) :
    SyncableLedger :=
  { sl with
    accounts := mapInsert sl.accounts account.id account
    balances :=
      if mapContains sl.balances account.id then sl.balances
      else sl.balances ++ [(account.id, 0)] }

/-- Method `SyncableLedger::record_transaction` (sync.rs): no validation and no
failure path; every posting's amount is added (zero-initialising absent
balance entries) and the transaction is pushed. -/
def SyncableLedger.record_transaction (sl : SyncableLedger)
    (tx : Transaction) : SyncableLedger :=
  { sl with
    balances := tx.postings.foldl
      (fun bs p => entryOrInsertAdd bs p.account_id p.amount) sl.balances
    transactions := sl.transactions ++ [tx] }

/-! ## `src/core/src/sync.rs`: document content and the projection bridge

The automerge document's logical content under `root.ledger`: the `accounts`
list, the `transactions` list and the `balances` map.  Fields the code passes
through bijective library codecs (UUID text, date text, decimal text,
postings JSON) are stored typed, per the conventions above; the account
category is stored as the literal string written by
`format!("{:?}", account.account_type)` because decoding it is repository
logic. -/

/-- One entry of the document's `accounts` list. -/
structure DocAccount where
  id : Uuid
  name : String
  type_str : String
deriving DecidableEq, Repr

/-- One entry of the document's `transactions` list; `postings` stands for
the JSON string `serde_json::to_string(&tx.postings)`. -/
structure DocTx where
  id : Uuid
  date : Date
  description : String
  postings : List Posting
deriving DecidableEq, Repr

/-- The document content under `root.ledger`. -/
structure DocContent where
  accounts : List DocAccount
  transactions : List DocTx
  balances : List (Uuid × Decimal)
deriving DecidableEq, Repr

/-- The content written by `SyncDoc::new`: three empty sections. -/
def emptyContent : DocContent := ⟨[], [], []⟩

/-- The string `format!("{:?}", account.account_type)` writes for a category. -/
def accountTypeName : AccountType → String
  | AccountType.Asset => "Asset"
  | AccountType.Liability => "Liability"
  | AccountType.Equity => "Equity"
  | AccountType.Revenue => "Revenue"
  | AccountType.Expense => "Expense"

/-- The account map written by `update_accounts` for one account. -/
def encodeAccount (a : Account) : DocAccount :=
  ⟨a.id, a.name, accountTypeName a.account_type⟩

/-- The transaction map written by `update_transactions` for one
transaction. -/
def encodeTx (t : Transaction) : DocTx :=
  ⟨t.id, t.date, t.description, t.postings⟩

/-- Method `SyncDoc::update_accounts`: clear the list, then insert one map per
account, iterating `accounts.values()` (modelled as entry order). -/
def update_accounts (c : DocContent) (accounts : List (Uuid × Account)) :
    DocContent :=
  { c with accounts := accounts.map (fun p => encodeAccount p.2) }

/-- Method `SyncDoc::update_transactions`: clear the list, then insert one map per
transaction in local insertion order. -/
def update_transactions (c : DocContent) (transactions : List Transaction) :
    DocContent :=
  { c with transactions := transactions.map encodeTx }

/-- Method `SyncDoc::update_balances`: delete every key, then `put` each entry of
the local balances map. -/
def update_balances (c : DocContent) (balances : List (Uuid × Decimal)) :
    DocContent :=
  { c with balances := balances.foldl (fun m p => mapInsert m p.1 p.2) [] }

/-- Method `SyncDoc::update_from_ledger`: project the three sections. -/
def update_from_ledger (c : DocContent) (ledger : SyncableLedger) :
    DocContent :=
  update_balances
    (update_transactions (update_accounts c ledger.accounts)
      ledger.transactions)
    ledger.balances

/-- The category-string `match` of `read_accounts`; any other string is
`SyncError::MissingField("unknown account type")`. -/
def parseAccountType (s : String) : Except String AccountType :=
  if s = "Asset" then Except.ok AccountType.Asset
  else if s = "Liability" then Except.ok AccountType.Liability
  else if s = "Equity" then Except.ok AccountType.Equity
  else if s = "Revenue" then Except.ok AccountType.Revenue
  else if s = "Expense" then Except.ok AccountType.Expense
  else Except.error "unknown account type"

/-- Method `SyncDoc::read_accounts`: walk the list, decode each entry, insert into a
fresh map keyed by the decoded id; the first decode failure aborts the read.
UUID parsing cannot fail in this typed model, so the only failure is the
category match. -/
def readAccountsLoop (m : List (Uuid × Account)) :
    List DocAccount → Except String (List (Uuid × Account))
  | [] => Except.ok m
  | da :: rest =>
    match parseAccountType da.type_str with
    | Except.ok t => readAccountsLoop (mapInsert m da.id ⟨da.id, da.name, t⟩) rest
    | Except.error e => Except.error e

/-- Method `SyncDoc::read_accounts` proper: start from an empty map. -/
def read_accounts (c : DocContent) :
    Except String (List (Uuid × Account)) :=
  readAccountsLoop [] c.accounts

/-- Method `SyncDoc::read_transactions`: walk the list in order and rebuild each
transaction; no entry is skipped and no deduplication is performed.  Date and
postings-JSON parsing cannot fail in this typed model. -/
def read_transactions (c : DocContent) :
    Except String (List Transaction) :=
  Except.ok (c.transactions.map (fun dt => ⟨dt.id, dt.date, dt.description, dt.postings⟩))

/-- Modelled from the spec: the body of `SyncDoc::read_balances` is absent
from the source file (it ends mid-declaration); per the spec,
"construct balances by parsing decimal text" — keys are UUID text and values
decimal text, both typed here, rebuilt into a map entry by entry. -/
def read_balances (c : DocContent) :
    Except String (List (Uuid × Decimal)) :=
  Except.ok (c.balances.foldl (fun m p => mapInsert m p.1 p.2) [])

/-- Method `SyncDoc::to_ledger`: read the three sections. -/
def to_ledger (c : DocContent) : Except String SyncableLedger :=
  match read_accounts c with
  | Except.error e => Except.error e
  | Except.ok accounts =>
    match read_transactions c with
    | Except.error e => Except.error e
    | Except.ok transactions =>
      match read_balances c with
      | Except.error e => Except.error e
      | Except.ok balances => Except.ok ⟨accounts, transactions, balances⟩

/-! ## Spec-modelled CRDT layer and controller

The `SyncDoc` wrapper delegates document state and `merge` to the external
`automerge::AutoCommit` library, which is not part of this repository.  It is
modelled from the spec: the document is a set of changes (each produced by
one projection commit, carrying the resulting content, identified by a
globally unique change id); `merge` adds exactly the changes not yet
observed, so internal operations are idempotent and merge is idempotent on
documents derived from a common ancestor; each section is
replace-with-latest-authoritative-state, realised by reading the content of
the newest change. -/

/-- Modelled from the spec: one logical commit of the CRDT document — the
`automerge` change produced by a single `update_from_ledger` call, carrying
the full resulting content (the spec's replace-with-latest-authoritative-state
regions written in a single logical commit). -/
structure Change where
  cid : Nat
  content : DocContent
deriving DecidableEq, Repr

/-- Modelled from the spec: the CRDT document as the set of changes it has
observed (`automerge::AutoCommit` internal state is not repository code). -/
structure SyncDoc where
  changes : List Change
deriving DecidableEq, Repr

/-- Whether a change with the given id has been observed. -/
def hasCid : List Change → Nat → Bool
  | [], _ => false
  | c :: cs, i => if c.cid = i then true else hasCid cs i

/-- Constructor `SyncDoc::new`: no change observed yet; the initialised empty
sections are the default content below. -/
def SyncDoc.new : SyncDoc := ⟨[]⟩

/-- Modelled from the spec: the current content of the document is that of
the newest observed change (replace-with-latest), or the empty initial
sections when no change has been observed. -/
def SyncDoc.docContent (d : SyncDoc) : DocContent :=
  match d.changes.foldl
      (fun acc c =>
        match acc with
        | none => some c
        | some best => if best.cid < c.cid then some c else some best)
      none with
  | none => emptyContent
  | some c => c.content

/-- Modelled from the spec: `SyncDoc::merge` (delegating to
`automerge::AutoCommit::merge`) adds exactly the changes of the other
document that this document has not yet observed. -/
def SyncDoc.mergeDoc (a b : SyncDoc) : SyncDoc :=
  ⟨a.changes ++ b.changes.filter (fun c => !(hasCid a.changes c.cid))⟩

/-- Modelled from the spec: a projection commit — `update_from_ledger`
executed on the current content and recorded as one new change; `automerge`
derives the fresh change id from actor id and sequence number, supplied here
by the caller. -/
def SyncDoc.project_from (d : SyncDoc) (ledger : SyncableLedger) (cid : Nat) :
    SyncDoc :=
  ⟨d.changes ++ [⟨cid, update_from_ledger d.docContent ledger⟩]⟩

/-- Projection out of the document (`SyncDoc::to_ledger` on the current
content). -/
def SyncDoc.project_to (d : SyncDoc) : Except String SyncableLedger :=
  to_ledger d.docContent

/-- Modelled from the spec: the sync controller owns one ledger and one sync
document. -/
structure Controller where
  ledger : SyncableLedger
  doc : SyncDoc
deriving DecidableEq, Repr

/-- Modelled from the spec: inbound-bytes handling — merge the inbound
document into the local one, project the result to a new ledger and replace
the local ledger; on a decode failure the inbound is dropped and the local
ledger is left unchanged. -/
def Controller.handle_inbound (st : Controller) (inbound : SyncDoc) :
    Controller :=
  let merged := SyncDoc.mergeDoc st.doc inbound
  match SyncDoc.project_to merged with
  | Except.ok l => ⟨l, merged⟩
  | Except.error _ => st

/-! ## Concrete fixtures for scenarios and witnesses -/

/-- Account A of scenarios S1/S2 (Asset). -/
def accA : Account := ⟨1, "A", AccountType.Asset⟩

/-- Account B of scenarios S1/S2 (Revenue). -/
def accB : Account := ⟨2, "B", AccountType.Revenue⟩

/-- A fixed date for fixture transactions. -/
def d0 : Date := ⟨2024, 1, 15⟩

/-- A balanced transaction touching A and B (scenario S2 shape). -/
def txOK : Transaction := ⟨10, d0, "s2", [⟨1, 100⟩, ⟨2, -100⟩]⟩

/-- A balanced transaction whose second posting references account id 99,
never added to the ledger. -/
def txGhost : Transaction := ⟨11, d0, "ghost", [⟨1, 100⟩, ⟨99, -100⟩]⟩

/-- A transaction with an empty posting list (sum is trivially zero). -/
def txEmpty : Transaction := ⟨12, d0, "empty", []⟩

/-- The ledger holding only account A. -/
def ledgerA : Ledger := Ledger.new.add_account accA

/-- Scenario S5 transaction T1. -/
def t1 : Transaction := ⟨30, d0, "t1", [⟨1, 50⟩, ⟨2, -50⟩]⟩

/-- Replica R1's local ledger after recording T1. -/
def sl1 : SyncableLedger :=
  ((SyncableLedger.new.add_account accA).add_account accB).record_transaction t1

/-- Replica R1's published document d1 (one projection commit). -/
def d1 : SyncDoc := SyncDoc.project_from SyncDoc.new sl1 1

/-- The ledger holding accounts A and B (scenario S2 setup). -/
def ledgerAB : Ledger := ledgerA.add_account accB

/-- A ledger built by inserting account B (id 2) before account A (id 1):
its account-map iteration order is [2, 1]. -/
def slBA : SyncableLedger :=
  (SyncableLedger.new.add_account accB).add_account accA

/-- Document content whose transactions list holds the same encoded
transaction twice (same transaction id). -/
def dupContent : DocContent := ⟨[], [encodeTx t1, encodeTx t1], []⟩

/-- An account entry with the unknown category string of scenario S6. -/
def badAcc : DocAccount := ⟨7, "X", "Overdraft"⟩

/-- Document content containing the `"Overdraft"` account entry. -/
def cBad : DocContent := ⟨[badAcc], [], []⟩

/-- An inbound document carrying `cBad` as one change. -/
def inbBad : SyncDoc := ⟨[⟨1, cBad⟩]⟩

/-- A controller state before receiving `inbBad`. -/
def st0 : Controller := ⟨sl1, SyncDoc.new⟩

/-- A ledger literal carrying account A with an accumulated balance of 7
(such states arise from transactions; used to witness balance resetting). -/
def lW : Ledger := ⟨[(1, accA)], [(1, 7)]⟩

/-- A replacement account reusing id 1 with a different name and category. -/
def accA2 : Account := ⟨1, "A2", AccountType.Liability⟩

/-- Keys of a map are pairwise distinct (the `HashMap` representation
invariant). -/
def NodupKeys {β : Type} (m : List (Uuid × β)) : Prop :=
  (m.map Prod.fst).Nodup

/-- Every stored account is keyed by its own id (established by
`add_account`, which inserts under `account.id`). -/
def WellKeyed (m : List (Uuid × Account)) : Prop :=
  ∀ p ∈ m, (Prod.snd p).id = Prod.fst p

instance {β : Type} (m : List (Uuid × β)) : Decidable (NodupKeys m) :=
  inferInstanceAs (Decidable ((m.map Prod.fst).Nodup))

instance (m : List (Uuid × Account)) : Decidable (WellKeyed m) :=
  inferInstanceAs (Decidable (∀ p ∈ m, (Prod.snd p).id = Prod.fst p))

/-- The read `balances.get(&id).unwrap_or(Decimal::ZERO)` on a bare balances
map (observer for stating balance properties of `SyncableLedger`). -/
def balanceEntry (m : List (Uuid × Decimal)) (k : Uuid) : Decimal :=
  (mapGet m k).getD 0

/-! ## Map lemmas -/

theorem mapContains_eq_false {β : Type} (m : List (Uuid × β)) (k : Uuid)
    (h : k ∉ m.map Prod.fst) : mapContains m k = false := by
  induction m with
  | nil => rfl
  | cons q m ih =>
    simp only [List.map_cons, List.mem_cons, not_or] at h
    simp [mapContains, Ne.symm h.1, ih h.2]

theorem mapInsert_of_not_mem {β : Type} (m : List (Uuid × β)) (k : Uuid)
    (v : β) (h : k ∉ m.map Prod.fst) : mapInsert m k v = m ++ [(k, v)] := by
  simp [mapInsert, mapContains_eq_false m k h]

theorem mapGet_mapInsert_self {β : Type} (m : List (Uuid × β)) (k : Uuid)
    (v : β) : mapGet (mapInsert m k v) k = some v := by
  by_cases hc : mapContains m k = true
  · simp only [mapInsert, hc, if_true]
    induction m with
    | nil => simp [mapContains] at hc
    | cons q m ih =>
      by_cases hq : q.1 = k
      · simp [mapGet, hq]
      · simp only [mapContains, hq, if_false] at hc
        simp [mapGet, hq, ih hc]
  · simp only [mapInsert, hc, if_false, Bool.false_eq_true]
    induction m with
    | nil => simp [mapGet]
    | cons q m ih =>
      by_cases hq : q.1 = k
      · simp [mapContains, hq] at hc
      · simp only [mapContains, hq, if_false] at hc
        simp [mapGet, hq, ih hc]

theorem mapGet_mapUpdate {β : Type} (m : List (Uuid × β)) (k a : Uuid)
    (f : β → β) :
    mapGet (mapUpdate m k f) a =
      if a = k then (mapGet m a).map f else mapGet m a := by
  induction m with
  | nil => simp [mapUpdate, mapGet]
  | cons q m ih =>
    simp only [mapUpdate, List.map_cons] at ih ⊢
    by_cases hqk : q.1 = k
    · by_cases hqa : q.1 = a
      · have hak : a = k := by rw [← hqa, hqk]
        simp [mapGet, hqk, hqa, hak]
      · have hak : ¬ (a = k) := fun hh => hqa (by rw [hqk, hh])
        have hka : ¬ (k = a) := fun hh => hak hh.symm
        simp [mapGet, hqk, hqa, hak, hka, ih]
    · by_cases hqa : q.1 = a
      · have hak : ¬ (a = k) := fun hh => hqk (by rw [hqa, hh])
        simp [mapGet, hqk, hqa, hak]
      · simp [mapGet, hqk, hqa, ih]

theorem mapGet_eq_none_of_not_contains {β : Type} (m : List (Uuid × β))
    (k : Uuid) (h : mapContains m k = false) : mapGet m k = none := by
  induction m with
  | nil => rfl
  | cons q m ih =>
    by_cases hq : q.1 = k
    · simp [mapContains, hq] at h
    · simp only [mapContains, hq, if_false] at h
      simp [mapGet, hq, ih h]

theorem mapGet_isSome_of_contains {β : Type} (m : List (Uuid × β)) (k : Uuid)
    (h : mapContains m k = true) : ∃ b, mapGet m k = some b := by
  induction m with
  | nil => simp [mapContains] at h
  | cons q m ih =>
    by_cases hq : q.1 = k
    · exact ⟨q.2, by simp [mapGet, hq]⟩
    · simp only [mapContains, hq, if_false] at h
      obtain ⟨b, hb⟩ := ih h
      exact ⟨b, by simp [mapGet, hq, hb]⟩

theorem mapGet_append {β : Type} (m1 m2 : List (Uuid × β)) (k : Uuid) :
    mapGet (m1 ++ m2) k =
      match mapGet m1 k with
      | some v => some v
      | none => mapGet m2 k := by
  induction m1 with
  | nil => simp [mapGet]
  | cons q m ih =>
    by_cases hq : q.1 = k
    · simp [mapGet, hq]
    · simp [mapGet, hq, ih]

/-! ## Balance-update lemmas -/

theorem balanceEntry_entryOrInsertAdd (m : List (Uuid × Decimal)) (k : Uuid)
    (amt : Decimal) (a : Uuid) :
    balanceEntry (entryOrInsertAdd m k amt) a =
      balanceEntry m a + (if a = k then amt else 0) := by
  unfold entryOrInsertAdd
  by_cases hc : mapContains m k = true
  · rw [if_pos hc]
    unfold balanceEntry
    rw [mapGet_mapUpdate]
    by_cases hak : a = k
    · obtain ⟨b, hb⟩ := mapGet_isSome_of_contains m k hc
      rw [if_pos hak, if_pos hak, hak, hb]
      simp
    · rw [if_neg hak, if_neg hak, add_zero]
  · rw [if_neg hc]
    unfold balanceEntry
    rw [mapGet_append]
    have hnone : mapGet m k = none :=
      mapGet_eq_none_of_not_contains m k (by simpa using hc)
    by_cases hak : a = k
    · subst hak
      rw [hnone]
      simp [mapGet]
    · rw [if_neg hak]
      have hka : ¬ (k = a) := fun hh => hak hh.symm
      cases hma : mapGet m a with
      | none => simp [mapGet, hak, hka, hma]
      | some b => simp [mapGet, hak, hka, hma]

theorem balanceEntry_foldPostings (ps : List Posting)
    (m : List (Uuid × Decimal)) (a : Uuid) :
    balanceEntry
        (ps.foldl (fun bs p => entryOrInsertAdd bs p.account_id p.amount) m)
        a =
      balanceEntry m a +
        ((ps.filter (fun p => p.account_id == a)).map
          (fun p => p.amount)).sum := by
  induction ps generalizing m with
  | nil => simp
  | cons p ps ih =>
    rw [List.foldl_cons, ih, balanceEntry_entryOrInsertAdd]
    by_cases h : p.account_id = a
    · subst h
      simp [List.filter_cons, add_assoc]
    · have h2 : ¬ (a = p.account_id) := fun hh => h hh.symm
      have hb : (p.account_id == a) = false := by simpa using h
      simp [List.filter_cons, hb, h2]

/-! ## Ledger validation lemmas -/

theorem applyPostings_ne_unbalanced (ps : List Posting) (l : Ledger) :
    (Ledger.applyPostings l ps).2 ≠ Except.error "Unbalanced transaction" := by
  induction ps generalizing l with
  | nil => simp [Ledger.applyPostings]
  | cons p ps ih =>
    simp only [Ledger.applyPostings]
    by_cases h : mapContains l.accounts p.account_id = true
    · rw [if_pos h]
      exact ih _
    · rw [if_neg h]
      intro hcon
      have : "Account not found" = "Unbalanced transaction" :=
        Except.error.inj hcon
      exact absurd this (by decide)

/-! ## Rebuild-by-insertion lemmas -/

theorem foldl_mapInsert_eq_append {β : Type} (l : List (Uuid × β)) :
    ∀ acc : List (Uuid × β), (((acc ++ l).map Prod.fst).Nodup) →
      l.foldl (fun m p => mapInsert m p.1 p.2) acc = acc ++ l := by
  induction l with
  | nil => intro acc _; simp
  | cons p l ih =>
    intro acc h
    have hmaps : (acc.map Prod.fst ++ p.1 :: l.map Prod.fst).Nodup := by
      simpa using h
    rw [List.nodup_append] at hmaps
    have hnotmem : p.1 ∉ acc.map Prod.fst := by
      intro hmem
      exact hmaps.2.2 hmem (List.mem_cons_self _ _)
    rw [List.foldl_cons, mapInsert_of_not_mem _ _ _ hnotmem]
    have h2 : (((acc ++ [p]) ++ l).map Prod.fst).Nodup := by
      simpa [List.append_assoc] using h
    rw [ih (acc ++ [p]) h2]
    simp

/-! ## Codec lemmas -/

theorem parse_accountTypeName (t : AccountType) :
    parseAccountType (accountTypeName t) = Except.ok t := by
  cases t <;> rfl

theorem readAccountsLoop_encoded (l : List (Uuid × Account)) :
    ∀ m : List (Uuid × Account),
      readAccountsLoop m (l.map (fun p => encodeAccount p.2)) =
        Except.ok (l.foldl (fun acc p => mapInsert acc p.2.id p.2) m) := by
  induction l with
  | nil => intro m; rfl
  | cons p l ih =>
    intro m
    simp only [List.map_cons, readAccountsLoop, encodeAccount,
      parse_accountTypeName, List.foldl_cons]
    exact ih _

/-! ## Merge lemmas -/

theorem hasCid_append_right (A B : List Change) (i : Nat)
    (h : hasCid B i = true) : hasCid (A ++ B) i = true := by
  induction A with
  | nil => simpa using h
  | cons c A ih =>
    by_cases hc : c.cid = i
    · simp [hasCid, hc]
    · simp [hasCid, hc, ih]

theorem hasCid_append_left (A B : List Change) (i : Nat)
    (h : hasCid A i = true) : hasCid (A ++ B) i = true := by
  induction A with
  | nil => simp [hasCid] at h
  | cons c A ih =>
    by_cases hc : c.cid = i
    · simp [hasCid, hc]
    · simp only [hasCid, hc, if_false] at h
      simp [hasCid, hc, ih h]

theorem hasCid_of_mem (B : List Change) (c : Change) (h : c ∈ B) :
    hasCid B c.cid = true := by
  induction B with
  | nil => simp at h
  | cons d B ih =>
    rcases List.mem_cons.mp h with h | h
    · simp [hasCid, h]
    · by_cases hd : d.cid = c.cid
      · simp [hasCid, hd]
      · simp [hasCid, hd, ih h]

theorem merge_filter_nil (A B : List Change) :
    B.filter (fun c =>
        !(hasCid (A ++ B.filter (fun c0 => !(hasCid A c0.cid))) c.cid)) =
      [] := by
  rw [List.filter_eq_nil_iff]
  intro c hc
  simp only [Bool.not_eq_true', Bool.not_eq_false]
  by_cases h : hasCid A c.cid = true
  · exact hasCid_append_left _ _ _ h
  · have hcF : c ∈ B.filter (fun c0 => !(hasCid A c0.cid)) := by
      rw [List.mem_filter]
      exact ⟨hc, by simp [h]⟩
    exact hasCid_append_right _ _ _ (hasCid_of_mem _ _ hcF)

theorem mergeDoc_idem (a b : SyncDoc) :
    SyncDoc.mergeDoc (SyncDoc.mergeDoc a b) b = SyncDoc.mergeDoc a b := by
  unfold SyncDoc.mergeDoc
  rw [SyncDoc.mk.injEq]
  rw [merge_filter_nil a.changes b.changes]
  simp

/-! ## General theorems about the embedded operations -/

/-- C3 (amended): `Ledger::record_transaction` returns the UnbalancedTx error
("Unbalanced transaction") if and only if the sum of the transaction's posting
amounts is nonzero; the code has no minimum-two-postings check. -/
theorem C3_amended_unbalanced_iff_sum_nonzero (l : Ledger) (tx : Transaction) :
    (Ledger.record_transaction l tx).2 =
        Except.error "Unbalanced transaction" ↔
      (tx.postings.map (fun p => p.amount)).sum ≠ 0 := by
  unfold Ledger.record_transaction
  by_cases h : tx.is_balanced = true
  · have hsum : (tx.postings.map (fun p => p.amount)).sum = 0 := by
      simpa [Transaction.is_balanced] using h
    simp [h, hsum, applyPostings_ne_unbalanced]
  · have h2 : tx.is_balanced = false := by
      simpa using h
    have hsum : (tx.postings.map (fun p => p.amount)).sum ≠ 0 := by
      simpa [Transaction.is_balanced] using h2
    simp [h2, hsum]

theorem parseAccountType_error_eq (s : String) (e : String)
    (h : parseAccountType s = Except.error e) : e = "unknown account type" := by
  unfold parseAccountType at h
  split_ifs at h
  injection h with h2
  exact h2.symm

theorem readAccountsLoop_unknown (l : List DocAccount) (da : DocAccount)
    (hmem : da ∈ l)
    (hunk : parseAccountType da.type_str =
      Except.error "unknown account type") :
    ∀ m, readAccountsLoop m l = Except.error "unknown account type" := by
  induction l with
  | nil => simp at hmem
  | cons d l ih =>
    intro m
    rcases List.mem_cons.mp hmem with h | h
    · subst h
      simp [readAccountsLoop, hunk]
    · cases hp : parseAccountType d.type_str with
      | ok t =>
        simp only [readAccountsLoop, hp]
        exact ih h _
      | error e =>
        have he : e = "unknown account type" :=
          parseAccountType_error_eq d.type_str e hp
        simp [readAccountsLoop, hp, he]

theorem decode_encode_txs (ts : List Transaction) :
    (ts.map encodeTx).map
        (fun dt => (⟨dt.id, dt.date, dt.description, dt.postings⟩ : Transaction)) =
      ts := by
  induction ts with
  | nil => rfl
  | cons t ts ih => simp [encodeTx, ih]

theorem foldl_mapInsert_wellKeyed (l : List (Uuid × Account))
    (h2 : WellKeyed l) :
    l.foldl (fun acc p => mapInsert acc (Prod.snd p).id p.2) [] =
      l.foldl (fun acc p => mapInsert acc p.1 p.2) [] := by
  apply List.foldl_ext
  intro acc p hp
  rw [h2 p hp]

/-- C4: projecting a ledger into a fresh sync document and back
(`SyncDoc::new`, then `update_from_ledger`, then `to_ledger`) returns exactly
the original ledger — equal accounts, transactions and balances — for every
well-formed ledger (distinct account and balance keys, accounts keyed by their
own id). -/
theorem C4_project_round_trip (L : SyncableLedger) (cid : Nat)
    (h1 : NodupKeys L.accounts) (h2 : WellKeyed L.accounts)
    (h3 : NodupKeys L.balances) :
    SyncDoc.project_to (SyncDoc.project_from SyncDoc.new L cid) =
      Except.ok L := by
  have hcontent : (SyncDoc.project_from SyncDoc.new L cid).docContent =
      update_from_ledger emptyContent L := rfl
  rw [SyncDoc.project_to, hcontent]
  have hA : (update_from_ledger emptyContent L).accounts =
      L.accounts.map (fun p => encodeAccount p.2) := by
    simp [update_from_ledger, update_balances, update_transactions,
      update_accounts]
  have hT : (update_from_ledger emptyContent L).transactions =
      L.transactions.map encodeTx := by
    simp [update_from_ledger, update_balances, update_transactions,
      update_accounts]
  have hBfold : L.balances.foldl (fun m p => mapInsert m p.1 p.2) [] =
      L.balances := by
    simpa using foldl_mapInsert_eq_append L.balances [] (by simpa using h3)
  have hB : (update_from_ledger emptyContent L).balances = L.balances := by
    simp [update_from_ledger, update_balances, update_transactions,
      update_accounts, hBfold]
  have hacc : read_accounts (update_from_ledger emptyContent L) =
      Except.ok L.accounts := by
    rw [read_accounts, hA, readAccountsLoop_encoded]
    have hfold : L.accounts.foldl (fun acc p => mapInsert acc (Prod.snd p).id p.2) [] =
        L.accounts := by
      rw [foldl_mapInsert_wellKeyed L.accounts h2]
      simpa using foldl_mapInsert_eq_append L.accounts [] (by simpa using h1)
    rw [hfold]
  have htx : read_transactions (update_from_ledger emptyContent L) =
      Except.ok L.transactions := by
    rw [read_transactions, hT]
    rw [decode_encode_txs]
  have hbal : read_balances (update_from_ledger emptyContent L) =
      Except.ok L.balances := by
    rw [read_balances, hB, hBfold]
  rw [to_ledger, hacc, htx, hbal]

theorem encoded_ids_eq_keys (l : List (Uuid × Account)) (h : WellKeyed l) :
    (l.map (fun p => encodeAccount p.2)).map DocAccount.id =
      l.map Prod.fst := by
  induction l with
  | nil => rfl
  | cons p l ih =>
    have hp : (Prod.snd p).id = p.1 := h p (List.mem_cons_self _ _)
    have hl : WellKeyed l := fun q hq => h q (List.mem_cons_of_mem _ hq)
    simp only [List.map_cons]
    rw [ih hl]
    simp [encodeAccount, hp]

/-- C7 (amended): when projecting, `update_accounts` clears the document's
accounts list and reinserts one encoded entry per account in the account map's
iteration order, so the encoded ids enumerate the map's keys in that order; no
sorting by account id is performed. -/
theorem C7_amended_update_accounts_iteration_order (c : DocContent)
    (accounts : List (Uuid × Account)) (h : WellKeyed accounts) :
    (update_accounts c accounts).accounts =
        accounts.map (fun p => encodeAccount p.2) ∧
    (update_accounts c accounts).accounts.map DocAccount.id =
        accounts.map Prod.fst := by
  refine ⟨rfl, ?_⟩
  have hlist : (update_accounts c accounts).accounts =
      accounts.map (fun p => encodeAccount p.2) := rfl
  rw [hlist, encoded_ids_eq_keys accounts h]

/-- C5 (amended): merging the same document twice is idempotent — for all
documents, the double-merge projection equals the single-merge projection —
and in scenario S5 the single-merge projection contains T1 exactly once,
because merge never re-applies observed changes; projection itself performs no
deduplication. -/
theorem C5_amended_merge_twice_idempotent :
    (∀ r2 dd : SyncDoc,
        SyncDoc.project_to (SyncDoc.mergeDoc (SyncDoc.mergeDoc r2 dd) dd) =
          SyncDoc.project_to (SyncDoc.mergeDoc r2 dd)) ∧
    (SyncDoc.project_to (SyncDoc.mergeDoc SyncDoc.new d1)).toOption.map
        (fun sl => sl.transactions.countP (fun t => t.id == t1.id)) =
      some 1 := by
  constructor
  · intro r2 dd
    rw [mergeDoc_idem]
  · decide

/-- C9: `Ledger::add_account` with an id already present overwrites the
stored account and unconditionally resets that account's balance to zero,
discarding the accumulated balance. -/
theorem C9_add_account_resets_balance (l : Ledger) (a old : Account) (b : Decimal)
    (hacc : mapGet l.accounts a.id = some old)
    (hbal : Ledger.balance l a.id = b) :
    Ledger.balance (Ledger.add_account l a) a.id = 0 ∧
      mapGet (Ledger.add_account l a).accounts a.id = some a := by
  constructor
  · unfold Ledger.balance Ledger.add_account
    rw [mapGet_mapInsert_self]
    rfl
  · unfold Ledger.add_account
    exact mapGet_mapInsert_self _ _ _

/-- C10: `SyncableLedger::record_transaction` performs no validation and
cannot fail: the transaction is appended to the transactions list, and each
account's balance entry (zero-initialised when absent) is increased by the
per-account sum of the transaction's posting amounts. -/
theorem C10_record_transaction_no_validation (sl : SyncableLedger) (tx : Transaction)
    (a : Uuid) :
    ((SyncableLedger.record_transaction sl tx).transactions =
        sl.transactions ++ [tx]) ∧
    balanceEntry (SyncableLedger.record_transaction sl tx).balances a =
      balanceEntry sl.balances a +
        ((tx.postings.filter (fun p => p.account_id == a)).map
          (fun p => p.amount)).sum := by
  constructor
  · rfl
  · exact balanceEntry_foldPostings tx.postings sl.balances a

/-- C8: decoding document content whose accounts list has an entry with an
unknown category string fails with the `DecodeError` naming
"unknown account type", and the modelled controller then drops the inbound
document, leaving the local ledger unchanged. -/
theorem C8_unknown_category_decode_error_drops (c : DocContent) (da : DocAccount)
    (hmem : da ∈ c.accounts)
    (hunk : parseAccountType da.type_str =
      Except.error "unknown account type") :
    to_ledger c = Except.error "unknown account type" ∧
    ∀ st : Controller, ∀ inbound : SyncDoc,
      (SyncDoc.mergeDoc st.doc inbound).docContent = c →
      (Controller.handle_inbound st inbound).ledger = st.ledger := by
  have hacc : read_accounts c = Except.error "unknown account type" := by
    rw [read_accounts]
    exact readAccountsLoop_unknown c.accounts da hmem hunk []
  constructor
  · rw [to_ledger, hacc]
  · intro st inbound hmc
    have hproj : SyncDoc.project_to (SyncDoc.mergeDoc st.doc inbound) =
        Except.error "unknown account type" := by
      rw [SyncDoc.project_to, hmc, to_ledger, hacc]
    simp only [Controller.handle_inbound, hproj]

/-! ## Claim evaluations, counterexamples and witnesses -/

/-- C1 (failing evaluation): a ledger reachable from `Ledger::new` by
`add_account` followed by one `record_transaction` call that fails with
UnknownAccount (its second posting references the never-added account id 99)
has Σ balance(a) = 100 ≠ 0: the first posting was applied before validation
of the second posting failed, violating global conservation. -/
theorem C1_conservation_violated :
    (ledgerA.record_transaction txGhost).2 =
        Except.error "Account not found" ∧
    Ledger.sumBalances (ledgerA.record_transaction txGhost).1 = 100 :=
  ⟨rfl, by decide⟩

/-- C2 (failing evaluation): an UnknownAccount failure is not all-or-nothing:
account A's balance changes from 0 to 100 even though `record_transaction`
returns the error, because postings are applied in the same loop that
validates them. -/
theorem C2_not_all_or_nothing :
    Ledger.balance ledgerA accA.id = 0 ∧
    (ledgerA.record_transaction txGhost).2 =
        Except.error "Account not found" ∧
    Ledger.balance (ledgerA.record_transaction txGhost).1 accA.id = 100 :=
  ⟨by decide, rfl, by decide⟩

/-- C6 (failing evaluation): on success `record_transaction` increments the
balances by the posting amounts, but the resulting `Ledger` value consists of
its accounts and balances fields only — the struct has no recorded-transactions
sequence, so the transaction is appended nowhere. -/
theorem C6_balances_updated_nothing_appended :
    (ledgerAB.record_transaction txOK).2 = Except.ok () ∧
    Ledger.balance (ledgerAB.record_transaction txOK).1 accA.id = 100 ∧
    Ledger.balance (ledgerAB.record_transaction txOK).1 accB.id = -100 ∧
    (ledgerAB.record_transaction txOK).1 =
      ⟨[(1, accA), (2, accB)], [(1, 100), (2, -100)]⟩ :=
  ⟨rfl, by decide, by decide, by decide⟩

/-- C3 (counterexample): a transaction with an empty posting list — fewer
than two postings, zero sum — is not rejected: `record_transaction` returns
Ok, contradicting the claimed minimum-two-postings UnbalancedTx rejection. -/
theorem C3_cex_empty_tx_accepted :
    txEmpty.postings.length < 2 ∧
    (txEmpty.postings.map (fun p => p.amount)).sum = 0 ∧
    (Ledger.new.record_transaction txEmpty).2 = Except.ok () :=
  ⟨by decide, by decide, rfl⟩

/-- C5 (counterexample): projection does not deduplicate by transaction id —
document content holding the same encoded transaction twice projects to a
transactions list containing it twice. -/
theorem C5_cex_projection_no_dedup :
    read_transactions dupContent = Except.ok [t1, t1] ∧
    (read_transactions dupContent).toOption.map
        (fun ts => ts.countP (fun t => t.id == t1.id)) = some 2 :=
  ⟨rfl, by decide⟩

/-- C7 (counterexample): inserting account id 2 before account id 1 yields an
encoded accounts list with ids [2, 1], which is not in ascending account-id
order — the encoding follows map iteration order, not a sort. -/
theorem C7_cex_not_sorted :
    (update_accounts emptyContent slBA.accounts).accounts.map DocAccount.id
        = [2, 1] ∧
    ¬ List.Sorted (fun x y => x ≤ y)
        ((update_accounts emptyContent slBA.accounts).accounts.map
          DocAccount.id) :=
  ⟨by decide, by decide⟩

/-- C4 (witness): the round trip evaluated at replica R1's concrete ledger
(two accounts, one recorded transaction). -/
theorem C4_witness :
    NodupKeys sl1.accounts ∧ WellKeyed sl1.accounts ∧
    NodupKeys sl1.balances ∧
    SyncDoc.project_to (SyncDoc.project_from SyncDoc.new sl1 1) =
      Except.ok sl1 :=
  ⟨by decide, by decide, by decide,
    C4_project_round_trip sl1 1 (by decide) (by decide) (by decide)⟩

/-- C7 (witness for the amended claim): the id enumeration evaluated at the
concrete two-account ledger inserted in the order [2, 1]. -/
theorem C7_witness :
    WellKeyed slBA.accounts ∧
    (update_accounts emptyContent slBA.accounts).accounts.map DocAccount.id =
      slBA.accounts.map Prod.fst :=
  ⟨by decide,
    (C7_amended_update_accounts_iteration_order emptyContent slBA.accounts
      (by decide)).2⟩

/-- C8 (witness): scenario S6 — an inbound document carrying an account with
category string "Overdraft" produces the decode error and leaves the
controller's ledger unchanged. -/
theorem C8_witness :
    badAcc ∈ cBad.accounts ∧
    parseAccountType badAcc.type_str =
      Except.error "unknown account type" ∧
    to_ledger cBad = Except.error "unknown account type" ∧
    (Controller.handle_inbound st0 inbBad).ledger = st0.ledger :=
  ⟨by decide, rfl,
    (C8_unknown_category_decode_error_drops cBad badAcc (by decide) rfl).1,
    (C8_unknown_category_decode_error_drops cBad badAcc (by decide) rfl).2
      st0 inbBad rfl⟩

/-- C9 (witness): resetting evaluated at a concrete ledger where account id 1
has balance 7; re-adding id 1 overwrites the account and zeroes the
balance. -/
theorem C9_witness :
    mapGet lW.accounts accA2.id = some accA ∧
    Ledger.balance lW accA2.id = 7 ∧
    Ledger.balance (Ledger.add_account lW accA2) accA2.id = 0 ∧
    mapGet (Ledger.add_account lW accA2).accounts accA2.id = some accA2 :=
  ⟨by decide, by decide,
    (C9_add_account_resets_balance lW accA2 accA 7 (by decide) (by decide)).1,
    (C9_add_account_resets_balance lW accA2 accA 7 (by decide) (by decide)).2⟩
